import Mathlib

/-!
Verification development for the Open Targets Platform MCP
schema category-subsetting engine.

Embedded source files:
* `src/open_targets_platform_mcp/tools/schema/subschema.py`
  (`_types_to_sdl`, `_build_category_subschema`, `build_category_subschemas`,
  `prefetch_category_subschemas`, `get_category_subschemas`)
* `src/open_targets_platform_mcp/tools/schema/schema.py`
  (`get_open_targets_graphql_schema`)

The reachability engine (`type_graph.py`: `TypeGraph`,
`get_reachable_types_with_depth`) is imported by `subschema.py` but its
source file is not part of the available tree; it is modelled from the
specification (multi-source depth-bounded BFS with visited-set cycle
safety), as indicated on the individual definitions.

Python strings are modelled by `String`, Python `set[str]` by
`Finset String`, Python dicts by association lists, and exceptions by
`Except`.  The GraphQL schema handle only enters through its
per-type-name printing facility `schema.type_map.get` + `print_type`,
modelled as a function `String → Option String`.
-/

namespace OpenTargetsPlatformMcp

/-! ### Executable lexicographic order on strings

Python's `sorted` on strings compares lexicographically by code point.
Lean's built-in `String.decidableLE` does not reduce in the kernel, so
we use an explicitly structural lexicographic comparison on the
underlying character lists. -/

def charListLe : List Char → List Char → Bool
  | [], _ => true
  | _ :: _, [] => false
  | a :: as, b :: bs =>
      if a < b then true
      else if b < a then false
      else charListLe as bs

def strLe (a b : String) : Bool :=
  charListLe a.data b.data

def strLeP (a b : String) : Prop :=
  strLe a b = true

instance : DecidableRel strLeP :=
  fun a b => inferInstanceAs (Decidable (strLe a b = true))

instance : IsTotal String strLeP where
  total := by
    have aux : ∀ as bs : List Char,
        charListLe as bs = true ∨ charListLe bs as = true := by
      intro as
      induction as with
      | nil => intro bs; left; rfl
      | cons a as ih =>
          intro bs
          cases bs with
          | nil => right; rfl
          | cons b bs =>
              by_cases hab : a < b
              · left; simp [charListLe, hab]
              · by_cases hba : b < a
                · right; simp [charListLe, hba, asymm hba]
                · rcases ih bs with h | h
                  · left; simp [charListLe, hab, hba, h]
                  · right; simp [charListLe, hab, hba, h]
    intro a b
    exact aux a.data b.data

instance : IsTrans String strLeP where
  trans := by
    have aux : ∀ as bs cs : List Char,
        charListLe as bs = true → charListLe bs cs = true →
        charListLe as cs = true := by
      intro as
      induction as with
      | nil => intro bs cs _ _; rfl
      | cons a as ih =>
          intro bs cs h1 h2
          cases bs with
          | nil => simp [charListLe] at h1
          | cons b bs =>
              cases cs with
              | nil => simp [charListLe] at h2
              | cons c cs =>
                  by_cases hab : a < b
                  · by_cases hbc : b < c
                    · simp [charListLe, lt_trans hab hbc]
                    · by_cases hcb : c < b
                      · simp [charListLe, hbc, hcb] at h2
                      · have : b = c := le_antisymm (not_lt.mp hcb) (not_lt.mp hbc)
                        subst this
                        simp [charListLe, hab]
                  · by_cases hba : b < a
                    · simp [charListLe, hab, hba] at h1
                    · have hEq : a = b := le_antisymm (not_lt.mp hba) (not_lt.mp hab)
                      subst hEq
                      simp [charListLe, hab] at h1
                      by_cases hbc : a < c
                      · simp [charListLe, hbc]
                      · by_cases hcb : c < a
                        · simp [charListLe, hbc, hcb] at h2
                        · simp [charListLe, hbc, hcb] at h2 ⊢
                          exact ih bs cs h1 h2
    intro a b c h1 h2
    exact aux a.data b.data c.data h1 h2

instance : IsAntisymm String strLeP where
  antisymm := by
    have aux : ∀ as bs : List Char,
        charListLe as bs = true → charListLe bs as = true → as = bs := by
      intro as
      induction as with
      | nil =>
          intro bs _ h2
          cases bs with
          | nil => rfl
          | cons b bs => simp [charListLe] at h2
      | cons a as ih =>
          intro bs h1 h2
          cases bs with
          | nil => simp [charListLe] at h1
          | cons b bs =>
              by_cases hab : a < b
              · simp [charListLe, hab, asymm hab] at h2
              · by_cases hba : b < a
                · simp [charListLe, hab, hba] at h1
                · have : a = b := le_antisymm (not_lt.mp hba) (not_lt.mp hab)
                  subst this
                  simp [charListLe, hab] at h1 h2
                  rw [ih bs h1 h2]
    intro a b h1 h2
    exact String.ext (aux a.data b.data h1 h2)

/-- Model of Python's `sorted` on an iterable of strings: a structural
insertion sort by the lexicographic order. -/
def sortNames (l : List String) : List String :=
  List.insertionSort strLeP l

/-- Canonical iteration order of a Python `set[str]`: obtained by lifting
the sort over the permutation quotient (iteration order of a set is
unspecified, and every consumer in the embedded code sorts). -/
def msort (s : Multiset String) : List String :=
  Quot.liftOn s sortNames (fun l₁ l₂ h =>
    List.eq_of_perm_of_sorted
      (((List.perm_insertionSort strLeP l₁).trans h).trans
        (List.perm_insertionSort strLeP l₂).symm)
      (List.sorted_insertionSort strLeP l₁)
      (List.sorted_insertionSort strLeP l₂))

def finsetIter (s : Finset String) : List String :=
  msort s.val

/-! ### Type graph and reachability engine -/

/-- Modelled from the spec: `type_graph.py` is not in the available source
tree; the spec describes a `TypeGraph` whose nodes are the named types of
the schema and whose edges map a type name to the set of type names it
references.  The field name `types` matches the attribute accessed by
`subschema.py` (`t in graph.types`). -/
structure TypeGraph where
  types : Finset String
  edges : String → Finset String

/-- Modelled from the spec: one frontier-expansion pass of the multi-source
BFS, repeated up to the fuel bound, stopping early once the frontier is
empty.  `frontier = (⋃ edges(x)) \ visited; visited ∪= frontier`. -/
def bfsLoop (G : TypeGraph) : Nat → Finset String → Finset String → Finset String
  | 0, visited, _ => visited
  | n + 1, visited, frontier =>
      let nf := (frontier.biUnion G.edges) \ visited
      if nf = ∅ then visited
      else bfsLoop G n (visited ∪ nf) nf

/-- Modelled from the spec: `get_reachable_types_with_depth(graph, seeds,
max_depth)` from the missing `type_graph.py`.  Seeds are filtered to
`graph.types` before traversal; `max_depth = None` means exhaustive
traversal to the fixpoint, which (for well-formed graphs) is reached
within `graph.types.card` expansion passes, so that bound is used as the
fuel. -/
def get_reachable_types_with_depth (G : TypeGraph) (seeds : Finset String)
    (max_depth : Option Nat) : Finset String :=
  let fs := seeds.filter (fun t => t ∈ G.types)
  match max_depth with
  | some d => bfsLoop G d fs fs
  | none => bfsLoop G G.types.card fs fs

/-- A graph is well-formed when every edge of a node of the graph targets
a node of the graph; graphs built from a schema are well-formed because
every reference resolves to a named schema type. -/
def WellFormed (G : TypeGraph) : Prop :=
  ∀ t ∈ G.types, G.edges t ⊆ G.types

instance (G : TypeGraph) : Decidable (WellFormed G) :=
  inferInstanceAs (Decidable (∀ t ∈ G.types, G.edges t ⊆ G.types))

/-! ### Data model of `subschema.py` -/

/-- A value of the category-registry JSON object: either a string (the
description) or a list of strings (the seed type names). -/
inductive CatVal where
  | str (s : String)
  | list (l : List String)
deriving DecidableEq

/-- One entry of `categories.json` as consumed by
`_build_category_subschema`: a Python dict whose `description` and
`types` keys may each be absent. -/
structure CategoryData where
  description : Option CatVal
  types : Option CatVal
deriving DecidableEq

/-- The `depth: int | Literal["exhaustive"]` parameter. -/
inductive Depth where
  | nat (n : Nat)
  | exhaustive
deriving DecidableEq

/-- `CategorySubschema` dataclass of `subschema.py`. -/
structure CategorySubschema where
  name : String
  description : String
  types : Finset String
  sdl : String
deriving DecidableEq

/-- `CategorySubschemas` dataclass of `subschema.py`; the Python dict
`category_name -> CategorySubschema` is modelled as an association list
in insertion order. -/
structure CategorySubschemas where
  subschemas : List (String × CategorySubschema)
  depth : Depth
deriving DecidableEq

/-- Python exceptions raised by the embedded code.  `keyError` models the
`KeyError` from a missing dict key; `runtimeError` and `valueError`
model `RuntimeError` / `ValueError` with their message strings. -/
inductive PyError where
  | keyError (key : String)
  | runtimeError (msg : String)
  | valueError (msg : String)
deriving DecidableEq

def _ERR_SUBSCHEMAS_NOT_INIT : String :=
  "Category subschemas not initialized. Call prefetch_category_subschemas() at server startup."

def _ERR_SCHEMA_NOT_INIT : String :=
  "Schema not initialized. Call prefetch_schema() at server startup."

/-! ### Functions of `subschema.py` -/

/-- `_types_to_sdl(type_names, schema)`: sort the names, look each up in
the schema type map (skipping absent ones), print each type, and join
the fragments with a blank line.  The schema handle appears only through
`tm = print_type ∘ schema.type_map.get : String → Option String`. -/
def _types_to_sdl (type_names : List String) (tm : String → Option String) : String :=
  String.intercalate "\n\n" ((sortNames type_names).filterMap tm)

/-- The seed-type extraction of `_build_category_subschema`:
`set(types_list) if isinstance(types_list, list) else set()`. -/
def seedTypesOf : CatVal → Finset String
  | .list l => l.toFinset
  | .str _ => ∅

/-- The description extraction of `_build_category_subschema`:
`category_data.get("description", "")`, coerced to `""` when the value
is not a string. -/
def descriptionOf : Option CatVal → String
  | some (.str s) => s
  | _ => ""

/-- `_build_category_subschema(category_name, category_data, graph,
schema, depth)`.  Accessing the missing `types` key raises `KeyError`;
seed types are filtered to `graph.types`, expanded by
`get_reachable_types_with_depth`, and rendered by `_types_to_sdl`. -/
def _build_category_subschema (category_name : String)
    (category_data : CategoryData) (graph : TypeGraph)
    (tm : String → Option String) (depth : Depth) :
    Except PyError CategorySubschema :=
  match category_data.types with
  | none => .error (.keyError "types")
  | some types_list =>
      let seed_types := seedTypesOf types_list
      let valid_seed_types := seed_types.filter (fun t => t ∈ graph.types)
      let max_depth : Option Nat :=
        match depth with
        | .exhaustive => none
        | .nat d => some d
      let expanded_types := get_reachable_types_with_depth graph valid_seed_types max_depth
      let sdl := _types_to_sdl (finsetIter expanded_types) tm
      .ok
        { name := category_name
          description := descriptionOf category_data.description
          types := expanded_types
          sdl := sdl }

/-- The loop body of `build_category_subschemas`: build every category in
registry order, propagating the first exception. -/
def build_subschemas_list (graph : TypeGraph) (tm : String → Option String)
    (depth : Depth) :
    List (String × CategoryData) → Except PyError (List (String × CategorySubschema))
  | [] => .ok []
  | (category_name, category_data) :: rest =>
      match _build_category_subschema category_name category_data graph tm depth with
      | .error e => .error e
      | .ok cs =>
          match build_subschemas_list graph tm depth rest with
          | .error e => .error e
          | .ok tail => .ok ((category_name, cs) :: tail)

/-- `build_category_subschemas(depth)`, with the external collaborators
(the graph, the schema printing function and the loaded category
registry) passed explicitly. -/
def build_category_subschemas (categories : List (String × CategoryData))
    (graph : TypeGraph) (tm : String → Option String) (depth : Depth) :
    Except PyError CategorySubschemas :=
  match build_subschemas_list graph tm depth categories with
  | .error e => .error e
  | .ok subschemas => .ok { subschemas := subschemas, depth := depth }

/-- `prefetch_category_subschemas(depth)`: runs the build and assigns the
module-level cache on success; on an exception the assignment is never
reached and the cache keeps its previous value.  Returns the new cache
state together with the raised exception, if any. -/
def prefetch_category_subschemas (categories : List (String × CategoryData))
    (graph : TypeGraph) (tm : String → Option String) (depth : Depth)
    (cached : Option CategorySubschemas) :
    Option CategorySubschemas × Option PyError :=
  match build_category_subschemas categories graph tm depth with
  | .ok s => (some s, none)
  | .error e => (cached, some e)

/-- `get_category_subschemas()`: raises `RuntimeError` when the
module-level cache `_cached_subschemas` is still `None`. -/
def get_category_subschemas (cached_subschemas : Option CategorySubschemas) :
    Except PyError CategorySubschemas :=
  match cached_subschemas with
  | none => .error (.runtimeError _ERR_SUBSCHEMAS_NOT_INIT)
  | some s => .ok s

/-! ### The lookup tool of `schema.py` -/

/-- The per-category type-set accumulation step of
`get_open_targets_graphql_schema`: `all_types.update(...)` over the
requested list (an absent key would be a `KeyError`, but validation has
already guaranteed presence when this runs). -/
def accumTypes (subschemas : List (String × CategorySubschema))
    (acc : Finset String) (c : String) : Finset String :=
  match subschemas.lookup c with
  | some cs => acc ∪ cs.types
  | none => acc

/-- `get_open_targets_graphql_schema(categories)`: checks the two
module-level caches, validates the requested names against the cached
subschema map, raises `ValueError` listing the invalid names and the
sorted valid names, and otherwise renders the union of the requested
categories' expanded type sets as one SDL string. -/
def get_open_targets_graphql_schema (cached_schema : Option String)
    (cached_subschemas : Option CategorySubschemas)
    (tm : String → Option String) (categories : List String) :
    Except PyError String :=
  match cached_schema with
  | none => .error (.runtimeError _ERR_SCHEMA_NOT_INIT)
  | some _ =>
      match get_category_subschemas cached_subschemas with
      | .error e => .error e
      | .ok subschemas =>
          let available_categories := sortNames (subschemas.subschemas.map Prod.fst)
          let invalid_categories :=
            categories.filter (fun c => (subschemas.subschemas.lookup c).isNone)
          if invalid_categories.isEmpty then
            let all_types := categories.foldl (accumTypes subschemas.subschemas) ∅
            .ok (_types_to_sdl (finsetIter all_types) tm)
          else
            .error (.valueError
              ("Invalid category name(s): " ++
               String.intercalate ", " invalid_categories ++
               ". Available categories: " ++
               String.intercalate ", " available_categories))

/-- The set of expanded types a cached subschema map associates to a
requested category name (empty for an unknown name). -/
def requestedTypes (subschemas : List (String × CategorySubschema))
    (c : String) : Finset String :=
  match subschemas.lookup c with
  | some cs => cs.types
  | none => ∅

/-! ### Concrete data for witnesses and counterexamples -/

/-- The two-node cyclic graph of the spec's cycle-termination property:
`A → B` and `B → A`. -/
def cycleGraph : TypeGraph where
  types := {"A", "B"}
  edges := fun t => if t = "A" then {"B"} else if t = "B" then {"A"} else ∅

/-- A sample type-printing function for two types. -/
def tmEx : String → Option String :=
  fun t =>
    if t = "A" then some "type A { id: String }"
    else if t = "B" then some "type B { id: String }"
    else none

/-- A sample cached subschema entry whose expanded types are `{A}`. -/
def csA : CategorySubschema where
  name := "cat-a"
  description := "category a"
  types := {"A"}
  sdl := "type A { id: String }"

/-- A sample cached subschema entry whose expanded types are `{A, B}`. -/
def csB : CategorySubschema where
  name := "cat-b"
  description := "category b"
  types := {"A", "B"}
  sdl := "type A { id: String }\n\ntype B { id: String }"

/-- A sample cached subschema map with two categories. -/
def subsEx : CategorySubschemas where
  subschemas := [("cat-a", csA), ("cat-b", csB)]
  depth := .nat 1

/-! ### Helper lemmas: sorting -/

theorem sortNames_perm (l : List String) : (sortNames l).Perm l :=
  List.perm_insertionSort strLeP l

theorem sortNames_eq_of_perm {l₁ l₂ : List String} (h : l₁.Perm l₂) :
    sortNames l₁ = sortNames l₂ :=
  List.eq_of_perm_of_sorted
    (((sortNames_perm l₁).trans h).trans (sortNames_perm l₂).symm)
    (List.sorted_insertionSort strLeP l₁)
    (List.sorted_insertionSort strLeP l₂)

/-! ### Helper lemmas: the reachability engine -/

theorem bfsLoop_of_frontier_closed {G : TypeGraph} {v f : Finset String}
    (h : (f.biUnion G.edges) \ v = ∅) :
    ∀ n, bfsLoop G n v f = v := by
  intro n
  cases n with
  | zero => rfl
  | succ n => simp [bfsLoop, h]

theorem biUnion_subset_of_wf {G : TypeGraph} (wf : WellFormed G)
    {f : Finset String} (hf : f ⊆ G.types) :
    f.biUnion G.edges ⊆ G.types :=
  Finset.biUnion_subset.mpr (fun t ht => wf t (hf ht))

theorem bfsLoop_subset {G : TypeGraph} (wf : WellFormed G) :
    ∀ (n : Nat) (v f : Finset String), v ⊆ G.types → f ⊆ G.types →
    bfsLoop G n v f ⊆ G.types := by
  intro n
  induction n with
  | zero => intro v f hv _; exact hv
  | succ n ih =>
      intro v f hv hf
      show (if (f.biUnion G.edges) \ v = ∅ then v
            else bfsLoop G n (v ∪ ((f.biUnion G.edges) \ v)) ((f.biUnion G.edges) \ v)) ⊆ G.types
      by_cases hnf : (f.biUnion G.edges) \ v = ∅
      · rw [if_pos hnf]; exact hv
      · rw [if_neg hnf]
        have hsub : (f.biUnion G.edges) \ v ⊆ G.types :=
          (Finset.sdiff_subset).trans (biUnion_subset_of_wf wf hf)
        exact ih _ _ (Finset.union_subset hv hsub) hsub

theorem bfsLoop_stable {G : TypeGraph} (wf : WellFormed G) :
    ∀ (n m : Nat) (v f : Finset String), v ⊆ G.types → f ⊆ G.types →
    G.types.card - v.card ≤ n → G.types.card - v.card ≤ m →
    bfsLoop G n v f = bfsLoop G m v f := by
  intro n
  induction n with
  | zero =>
      intro m v f hv hf hn _
      have hcard : G.types.card ≤ v.card := Nat.le_of_sub_eq_zero (Nat.le_zero.mp hn)
      have hveq : v = G.types := Finset.eq_of_subset_of_card_le hv hcard
      have hclosed : (f.biUnion G.edges) \ v = ∅ := by
        rw [Finset.sdiff_eq_empty_iff_subset, hveq]
        exact biUnion_subset_of_wf wf hf
      rw [bfsLoop_of_frontier_closed hclosed m]
      rfl
  | succ n ih =>
      intro m v f hv hf hn hm
      cases m with
      | zero =>
          have hcard : G.types.card ≤ v.card := Nat.le_of_sub_eq_zero (Nat.le_zero.mp hm)
          have hveq : v = G.types := Finset.eq_of_subset_of_card_le hv hcard
          have hclosed : (f.biUnion G.edges) \ v = ∅ := by
            rw [Finset.sdiff_eq_empty_iff_subset, hveq]
            exact biUnion_subset_of_wf wf hf
          rw [bfsLoop_of_frontier_closed hclosed (n + 1)]
          rfl
      | succ m =>
          show (if (f.biUnion G.edges) \ v = ∅ then v
                else bfsLoop G n (v ∪ ((f.biUnion G.edges) \ v)) ((f.biUnion G.edges) \ v)) =
               (if (f.biUnion G.edges) \ v = ∅ then v
                else bfsLoop G m (v ∪ ((f.biUnion G.edges) \ v)) ((f.biUnion G.edges) \ v))
          by_cases hnf : (f.biUnion G.edges) \ v = ∅
          · rw [if_pos hnf, if_pos hnf]
          · rw [if_neg hnf, if_neg hnf]
            have hsub : (f.biUnion G.edges) \ v ⊆ G.types :=
              (Finset.sdiff_subset).trans (biUnion_subset_of_wf wf hf)
            have hdisj : Disjoint v ((f.biUnion G.edges) \ v) :=
              (Finset.sdiff_disjoint).symm
            have hcardu : (v ∪ ((f.biUnion G.edges) \ v)).card =
                v.card + ((f.biUnion G.edges) \ v).card :=
              Finset.card_union_of_disjoint hdisj
            have hpos : 1 ≤ ((f.biUnion G.edges) \ v).card :=
              Finset.card_pos.mpr (Finset.nonempty_iff_ne_empty.mpr hnf)
            have hle : (v ∪ ((f.biUnion G.edges) \ v)).card ≤ G.types.card :=
              Finset.card_le_card (Finset.union_subset hv hsub)
            exact ih m _ _ (Finset.union_subset hv hsub) hsub
              (by omega) (by omega)

theorem filtered_seeds_subset (G : TypeGraph) (S : Finset String) :
    S.filter (fun t => t ∈ G.types) ⊆ G.types :=
  fun _ ht => (Finset.mem_filter.mp ht).2

theorem get_reachable_subset {G : TypeGraph} (wf : WellFormed G)
    (S : Finset String) (d : Option Nat) :
    get_reachable_types_with_depth G S d ⊆ G.types := by
  cases d with
  | none =>
      exact bfsLoop_subset wf _ _ _ (filtered_seeds_subset G S) (filtered_seeds_subset G S)
  | some d =>
      exact bfsLoop_subset wf _ _ _ (filtered_seeds_subset G S) (filtered_seeds_subset G S)

theorem get_reachable_empty_seeds (G : TypeGraph) (d : Option Nat)
    (S : Finset String) (h : S.filter (fun t => t ∈ G.types) = ∅) :
    get_reachable_types_with_depth G S d = ∅ := by
  have hclosed : ((∅ : Finset String).biUnion G.edges) \ ∅ = ∅ := by
    simp
  cases d with
  | none =>
      show bfsLoop G G.types.card (S.filter (fun t => t ∈ G.types))
        (S.filter (fun t => t ∈ G.types)) = ∅
      rw [h]
      exact bfsLoop_of_frontier_closed hclosed _
  | some d =>
      show bfsLoop G d (S.filter (fun t => t ∈ G.types))
        (S.filter (fun t => t ∈ G.types)) = ∅
      rw [h]
      exact bfsLoop_of_frontier_closed hclosed _

/-! ### Helper lemmas: the lookup tool -/

theorem accumTypes_step (subschemas : List (String × CategorySubschema))
    (acc : Finset String) (c : String) :
    accumTypes subschemas acc c = acc ∪ requestedTypes subschemas c := by
  unfold accumTypes requestedTypes
  cases subschemas.lookup c <;> simp

theorem foldl_accumTypes (subschemas : List (String × CategorySubschema)) :
    ∀ (l : List String) (init : Finset String),
    l.foldl (accumTypes subschemas) init =
      init ∪ l.toFinset.biUnion (requestedTypes subschemas) := by
  intro l
  induction l with
  | nil => intro init; simp
  | cons c l ih =>
      intro init
      show l.foldl (accumTypes subschemas) (accumTypes subschemas init c) = _
      rw [ih, accumTypes_step]
      ext x
      simp only [Finset.mem_union, List.toFinset_cons, Finset.biUnion_insert,
        Finset.mem_biUnion]
      tauto

theorem tool_ok_of_all_valid (schema_sdl : String) (subs : CategorySubschemas)
    (tm : String → Option String) (categories : List String)
    (hvalid : ∀ c ∈ categories, (subs.subschemas.lookup c).isSome) :
    get_open_targets_graphql_schema (some schema_sdl) (some subs) tm categories =
      .ok (_types_to_sdl
        (finsetIter (categories.toFinset.biUnion (requestedTypes subs.subschemas))) tm) := by
  have hinv : categories.filter (fun c => (subs.subschemas.lookup c).isNone) = [] := by
    rw [List.filter_eq_nil_iff]
    intro c hc
    have hs := hvalid c hc
    cases hlk : subs.subschemas.lookup c with
    | none => rw [hlk] at hs; simp at hs
    | some cs => simp [hlk]
  simp only [get_open_targets_graphql_schema, get_category_subschemas, hinv,
    List.isEmpty_nil, if_true]
  rw [foldl_accumTypes subs.subschemas categories ∅, Finset.empty_union]

theorem build_list_error_iff (graph : TypeGraph) (tm : String → Option String)
    (depth : Depth) :
    ∀ cats : List (String × CategoryData),
    (∃ e, build_subschemas_list graph tm depth cats = .error e) ↔
    (∃ p ∈ cats, (p.2 : CategoryData).types = none) := by
  intro cats
  induction cats with
  | nil => simp [build_subschemas_list]
  | cons hd rest ih =>
      obtain ⟨n, d⟩ := hd
      cases hdt : d.types with
      | none =>
          constructor
          · intro _
            exact ⟨(n, d), List.mem_cons_self _ _, hdt⟩
          · intro _
            exact ⟨.keyError "types",
              by simp [build_subschemas_list, _build_category_subschema, hdt]⟩
      | some tl =>
          obtain ⟨cs, hbuild⟩ : ∃ cs, _build_category_subschema n d graph tm depth = .ok cs := by
            unfold _build_category_subschema
            rw [hdt]
            exact ⟨_, rfl⟩
          constructor
          · rintro ⟨e, he⟩
            simp only [build_subschemas_list, hbuild] at he
            cases hrest : build_subschemas_list graph tm depth rest with
            | error er =>
                obtain ⟨p, hp, hpt⟩ := ih.mp ⟨er, hrest⟩
                exact ⟨p, List.mem_cons_of_mem _ hp, hpt⟩
            | ok tail =>
                rw [hrest] at he
                exact absurd he (by simp)
          · rintro ⟨p, hp, hpt⟩
            rcases List.mem_cons.mp hp with hph | hpr
            · rw [hph] at hpt
              rw [hpt] at hdt
              exact absurd hdt (by simp)
            · obtain ⟨e, he⟩ := ih.mpr ⟨p, hpr, hpt⟩
              exact ⟨e, by simp [build_subschemas_list, hbuild, he]⟩

theorem build_error_iff (categories : List (String × CategoryData))
    (graph : TypeGraph) (tm : String → Option String) (depth : Depth) :
    (∃ e, build_category_subschemas categories graph tm depth = .error e) ↔
    (∃ p ∈ categories, (p.2 : CategoryData).types = none) := by
  rw [← build_list_error_iff graph tm depth categories]
  unfold build_category_subschemas
  cases h : build_subschemas_list graph tm depth categories <;> simp

/-! ### Claims -/

/-- C3: for every type graph `G` and seed set `S`, reachability at depth 0
(`get_reachable_types_with_depth` with `max_depth = 0`) returns exactly
`S` filtered to the nodes of `G`, with no expansion. -/
theorem C3_depth_zero_returns_filtered_seeds (G : TypeGraph) (S : Finset String) :
    get_reachable_types_with_depth G S (some 0) = S.filter (fun t => t ∈ G.types) :=
  rfl

/-- C6: a seed name absent from the graph's nodes is dropped before
traversal: reachability from a seed set with the unknown name inserted
equals reachability without it, at every depth (bounded or exhaustive);
and, for a well-formed graph, the unknown name never appears in the
resulting expanded type set. -/
theorem C6_unknown_seeds_dropped (G : TypeGraph) (S : Finset String)
    (bogus : String) (d : Option Nat) (wf : WellFormed G)
    (hbogus : bogus ∉ G.types) :
    get_reachable_types_with_depth G (insert bogus S) d =
      get_reachable_types_with_depth G S d ∧
    bogus ∉ get_reachable_types_with_depth G S d := by
  constructor
  · have hfs : (insert bogus S).filter (fun t => t ∈ G.types) =
        S.filter (fun t => t ∈ G.types) := by
      rw [Finset.filter_insert]
      exact if_neg hbogus
    cases d with
    | none =>
        show bfsLoop G G.types.card ((insert bogus S).filter (fun t => t ∈ G.types))
            ((insert bogus S).filter (fun t => t ∈ G.types)) =
          bfsLoop G G.types.card (S.filter (fun t => t ∈ G.types))
            (S.filter (fun t => t ∈ G.types))
        rw [hfs]
    | some n =>
        show bfsLoop G n ((insert bogus S).filter (fun t => t ∈ G.types))
            ((insert bogus S).filter (fun t => t ∈ G.types)) =
          bfsLoop G n (S.filter (fun t => t ∈ G.types))
            (S.filter (fun t => t ∈ G.types))
        rw [hfs]
  · intro hmem
    exact hbogus (get_reachable_subset wf S d hmem)

/-- Witness for C6 at the concrete cyclic graph with the unknown seed
name of the repository's test suite. -/
theorem C6_unknown_seeds_dropped_witness :
    get_reachable_types_with_depth cycleGraph (insert "Bogus" {"A"}) (some 1) =
      get_reachable_types_with_depth cycleGraph {"A"} (some 1) ∧
    "Bogus" ∉ get_reachable_types_with_depth cycleGraph {"A"} (some 1) :=
  C6_unknown_seeds_dropped cycleGraph {"A"} "Bogus" (some 1)
    (by decide) (by decide)

/-- C7: the frontier-expansion iteration stabilizes — on a well-formed
graph every depth bound of at least the number of nodes already yields
the exhaustive fixpoint, so the traversal never loops unboundedly — and
on the cyclic graph `A → B, B → A` with seeds `{A}` and depth 10 the
result is exactly `{A, B}`. -/
theorem C7_terminates_and_handles_cycles :
    (∀ (G : TypeGraph) (S : Finset String) (d : Nat), WellFormed G →
      G.types.card ≤ d →
      get_reachable_types_with_depth G S (some d) =
        get_reachable_types_with_depth G S none) ∧
    get_reachable_types_with_depth cycleGraph {"A"} (some 10) = {"A", "B"} := by
  constructor
  · intro G S d wf hd
    show bfsLoop G d (S.filter (fun t => t ∈ G.types)) (S.filter (fun t => t ∈ G.types)) =
      bfsLoop G G.types.card (S.filter (fun t => t ∈ G.types)) (S.filter (fun t => t ∈ G.types))
    exact bfsLoop_stable wf d G.types.card _ _
      (filtered_seeds_subset G S) (filtered_seeds_subset G S)
      (le_trans (Nat.sub_le _ _) hd) (Nat.sub_le _ _)
  · decide

/-- Witness for C7: the stabilization half applied at the concrete cyclic
graph, whose node count 2 makes depth 2 already exhaustive. -/
theorem C7_terminates_and_handles_cycles_witness :
    get_reachable_types_with_depth cycleGraph {"A"} (some 2) =
      get_reachable_types_with_depth cycleGraph {"A"} none :=
  C7_terminates_and_handles_cycles.1 cycleGraph {"A"} 2 (by decide) (by decide)

/-- C2: every cache read made while the module-level cache is still unset
fails with the not-initialized `RuntimeError` rather than returning
empty or partial data — both `get_category_subschemas` itself and the
lookup tool that calls it — and once `prefetch_category_subschemas` has
completed, the same read returns the cached `CategorySubschemas`. -/
theorem C2_cache_reads_before_prefetch :
    get_category_subschemas none = .error (.runtimeError _ERR_SUBSCHEMAS_NOT_INIT) ∧
    (∀ s, get_category_subschemas (some s) = .ok s) ∧
    (∀ (schema_sdl : String) (tm : String → Option String) (categories : List String),
      get_open_targets_graphql_schema (some schema_sdl) none tm categories =
        .error (.runtimeError _ERR_SUBSCHEMAS_NOT_INIT)) ∧
    (∀ (categories : List (String × CategoryData)) (graph : TypeGraph)
        (tm : String → Option String) (depth : Depth)
        (cached : Option CategorySubschemas) (s : CategorySubschemas),
      build_category_subschemas categories graph tm depth = .ok s →
      get_category_subschemas
        (prefetch_category_subschemas categories graph tm depth cached).1 = .ok s) := by
  refine ⟨rfl, fun _ => rfl, fun _ _ _ => rfl, ?_⟩
  intro categories graph tm depth cached s h
  simp only [prefetch_category_subschemas, h]
  rfl

/-- Witness for C2: after a prefetch over the empty registry, the read
returns the built (empty) subschema map. -/
theorem C2_cache_reads_before_prefetch_witness :
    get_category_subschemas
      (prefetch_category_subschemas [] cycleGraph tmEx (.nat 1) none).1 =
      .ok { subschemas := [], depth := .nat 1 } :=
  C2_cache_reads_before_prefetch.2.2.2 [] cycleGraph tmEx (.nat 1) none
    { subschemas := [], depth := .nat 1 } rfl

/-- C4: `_types_to_sdl` iterates its argument in sorted lexical order and
joins the fragments with a blank line, so its output depends only on the
set of type names: any two invocations over lists that are permutations
of each other (identical sets) produce byte-identical SDL strings. -/
theorem C4_sdl_deterministic (tm : String → Option String)
    (l₁ l₂ : List String) (h : l₁.Perm l₂) :
    _types_to_sdl l₁ tm = _types_to_sdl l₂ tm := by
  show String.intercalate "\n\n" ((sortNames l₁).filterMap tm) =
    String.intercalate "\n\n" ((sortNames l₂).filterMap tm)
  rw [sortNames_eq_of_perm h]

/-- Witness for C4 at a concrete pair of permuted type-name lists. -/
theorem C4_sdl_deterministic_witness :
    _types_to_sdl ["B", "A"] tmEx = _types_to_sdl ["A", "B"] tmEx :=
  C4_sdl_deterministic tmEx ["B", "A"] ["A", "B"] (by decide)

/-- C5: a category whose seed types, filtered to the graph's nodes, form
an empty set builds to a `CategorySubschema` with empty `types` and
empty `sdl`, raising no exception. -/
theorem C5_empty_category_builds_empty (category_name : String)
    (description : Option CatVal) (tl : CatVal) (G : TypeGraph)
    (tm : String → Option String) (depth : Depth)
    (hfilter : (seedTypesOf tl).filter (fun t => t ∈ G.types) = ∅) :
    ∃ cs, _build_category_subschema category_name
        { description := description, types := some tl } G tm depth = .ok cs ∧
      cs.types = ∅ ∧ cs.sdl = "" := by
  have hempty : ∀ md, get_reachable_types_with_depth G
      ((seedTypesOf tl).filter (fun t => t ∈ G.types)) md = ∅ := by
    intro md
    rw [hfilter]
    exact get_reachable_empty_seeds G md ∅ (by simp)
  refine ⟨_, rfl, ?_, ?_⟩
  · exact hempty _
  · show _types_to_sdl (finsetIter (get_reachable_types_with_depth G _ _)) tm = ""
    rw [hempty]
    rfl

/-- Witness for C5: a category whose only seed type is absent from the
graph builds to the empty subschema. -/
theorem C5_empty_category_builds_empty_witness :
    ∃ cs, _build_category_subschema "test"
        { description := some (.str "Test"), types := some (.list ["NonExistentType"]) }
        cycleGraph tmEx (.nat 0) = .ok cs ∧
      cs.types = ∅ ∧ cs.sdl = "" :=
  C5_empty_category_builds_empty "test" (some (.str "Test"))
    (.list ["NonExistentType"]) cycleGraph tmEx (.nat 0) (by decide)

/-- C1: on an initialized cache, when at least one requested category
name is unknown the lookup tool fails with a `ValueError` whose message
lists the offending requested names and the full sorted list of valid
category names — and every unknown requested name is among the listed
offenders; when every requested name is known it returns the union of
the requested categories' expanded type sets rendered as one combined,
deduplicated SDL string. -/
theorem C1_lookup_validates_and_unions (schema_sdl : String)
    (subs : CategorySubschemas) (tm : String → Option String)
    (categories : List String) :
    ((∃ c ∈ categories, (subs.subschemas.lookup c).isNone) →
      get_open_targets_graphql_schema (some schema_sdl) (some subs) tm categories =
        .error (.valueError
          ("Invalid category name(s): " ++
           String.intercalate ", "
             (categories.filter (fun c => (subs.subschemas.lookup c).isNone)) ++
           ". Available categories: " ++
           String.intercalate ", " (sortNames (subs.subschemas.map Prod.fst)))) ∧
      ∀ c ∈ categories, (subs.subschemas.lookup c).isNone = true →
        c ∈ categories.filter (fun c => (subs.subschemas.lookup c).isNone)) ∧
    ((∀ c ∈ categories, (subs.subschemas.lookup c).isSome) →
      get_open_targets_graphql_schema (some schema_sdl) (some subs) tm categories =
        .ok (_types_to_sdl
          (finsetIter (categories.toFinset.biUnion (requestedTypes subs.subschemas))) tm)) := by
  constructor
  · rintro ⟨c, hc, hnone⟩
    have hmem : c ∈ categories.filter (fun c => (subs.subschemas.lookup c).isNone) :=
      List.mem_filter.mpr ⟨hc, hnone⟩
    have hne : (categories.filter (fun c => (subs.subschemas.lookup c).isNone)).isEmpty = false := by
      cases hfe : categories.filter (fun c => (subs.subschemas.lookup c).isNone) with
      | nil => rw [hfe] at hmem; simp at hmem
      | cons a l => simp [List.isEmpty]
    refine ⟨?_, fun c hc hnone => List.mem_filter.mpr ⟨hc, hnone⟩⟩
    simp only [get_open_targets_graphql_schema, get_category_subschemas, hne,
      Bool.false_eq_true, if_false]
  · intro hvalid
    exact tool_ok_of_all_valid schema_sdl subs tm categories hvalid

/-- Witness for C1: the unknown name of the spec's example is rejected
with the message listing it and the sorted valid names, and a valid
request renders the union SDL. -/
theorem C1_lookup_validates_and_unions_witness :
    (get_open_targets_graphql_schema (some "sdl") (some subsEx) tmEx
        ["unknown-category"] =
      .error (.valueError
        ("Invalid category name(s): " ++
         String.intercalate ", " (["unknown-category"].filter
           (fun c => (subsEx.subschemas.lookup c).isNone)) ++
         ". Available categories: " ++
         String.intercalate ", " (sortNames (subsEx.subschemas.map Prod.fst)))) ∧
      ∀ c ∈ ["unknown-category"], (subsEx.subschemas.lookup c).isNone = true →
        c ∈ ["unknown-category"].filter (fun c => (subsEx.subschemas.lookup c).isNone)) ∧
    get_open_targets_graphql_schema (some "sdl") (some subsEx) tmEx ["cat-a", "cat-b"] =
      .ok (_types_to_sdl
        (finsetIter (["cat-a", "cat-b"].toFinset.biUnion (requestedTypes subsEx.subschemas))) tmEx) :=
  ⟨(C1_lookup_validates_and_unions "sdl" subsEx tmEx ["unknown-category"]).1
      ⟨"unknown-category", by decide, by decide⟩,
   (C1_lookup_validates_and_unions "sdl" subsEx tmEx ["cat-a", "cat-b"]).2
      (by decide)⟩

/-- C10: on an initialized cache, the lookup tool's output depends only
on the set of requested (valid) category names: any permutation or
duplication of the request list yields a byte-identical result, and the
call succeeds. -/
theorem C10_lookup_depends_only_on_set (schema_sdl : String)
    (subs : CategorySubschemas) (tm : String → Option String)
    (l₁ l₂ : List String)
    (hvalid : ∀ c ∈ l₁, (subs.subschemas.lookup c).isSome)
    (hset : l₁.toFinset = l₂.toFinset) :
    get_open_targets_graphql_schema (some schema_sdl) (some subs) tm l₁ =
      get_open_targets_graphql_schema (some schema_sdl) (some subs) tm l₂ ∧
    ∃ s, get_open_targets_graphql_schema (some schema_sdl) (some subs) tm l₁ = .ok s := by
  have hvalid₂ : ∀ c ∈ l₂, (subs.subschemas.lookup c).isSome := by
    intro c hc
    exact hvalid c (List.mem_toFinset.mp (hset ▸ List.mem_toFinset.mpr hc))
  rw [tool_ok_of_all_valid schema_sdl subs tm l₁ hvalid,
    tool_ok_of_all_valid schema_sdl subs tm l₂ hvalid₂, hset]
  exact ⟨rfl, _, rfl⟩

/-- Witness for C10 at a permuted, duplicated request list over the
sample cache. -/
theorem C10_lookup_depends_only_on_set_witness :
    get_open_targets_graphql_schema (some "sdl") (some subsEx) tmEx ["cat-b", "cat-a"] =
      get_open_targets_graphql_schema (some "sdl") (some subsEx) tmEx
        ["cat-a", "cat-b", "cat-a"] ∧
    ∃ s, get_open_targets_graphql_schema (some "sdl") (some subsEx) tmEx
        ["cat-b", "cat-a"] = .ok s :=
  C10_lookup_depends_only_on_set "sdl" subsEx tmEx ["cat-b", "cat-a"]
    ["cat-a", "cat-b", "cat-a"] (by decide) (by decide)

/-- C8 counterexample: a registry entry missing its `description` field
does not fail startup initialization — the build succeeds, the category
is assembled with an empty description, and the cache is published. -/
theorem C8_missing_description_tolerated :
    build_category_subschemas
        [("c", { description := none, types := some (.list []) })]
        cycleGraph tmEx (.nat 1) =
      .ok { subschemas := [("c", { name := "c", description := "", types := ∅, sdl := "" })]
            depth := .nat 1 } := by
  rfl

/-- C8 amended: a registry entry missing its `types` field makes the
startup build fail (a `KeyError` halting initialization, so the cache is
never published and keeps its previous value), while an entry missing
only its `description` field is tolerated: the build fails if and only
if some entry lacks `types`. -/
theorem C8_malformed_entry_behaviour (categories : List (String × CategoryData))
    (graph : TypeGraph) (tm : String → Option String) (depth : Depth)
    (cached : Option CategorySubschemas) :
    ((∃ e, build_category_subschemas categories graph tm depth = .error e) ↔
      (∃ p ∈ categories, (p.2 : CategoryData).types = none)) ∧
    (∀ e, build_category_subschemas categories graph tm depth = .error e →
      (prefetch_category_subschemas categories graph tm depth cached).1 = cached) := by
  refine ⟨build_error_iff categories graph tm depth, ?_⟩
  intro e he
  simp [prefetch_category_subschemas, he]

/-- Witness for C8: prefetch over a registry whose entry lacks `types`
leaves the cache unset. -/
theorem C8_malformed_entry_behaviour_witness :
    (prefetch_category_subschemas [("c", { description := some (.str "x"), types := none })]
        cycleGraph tmEx (.nat 1) none).1 = none :=
  (C8_malformed_entry_behaviour
      [("c", { description := some (.str "x"), types := none })]
      cycleGraph tmEx (.nat 1) none).2 (.keyError "types") (by rfl)

end OpenTargetsPlatformMcp
